import Mathlib

/-!
Verification of the activity repository's normalization and aggregation
pipeline: the call-log adapter (`src/ui/src/services/callsData.ts`), the
Google Photos adapter (`src/ui/src/services/googlePhotosData.ts`), the
genre/subgenre month aggregation
(`src/ui/src/services/traktGenreAggregation.ts`), the month gap-filling of
the subgenre display component (`monthsForYear`), and the paginated
Google Photos frequency-counter loop.

Modelling conventions:
* A JavaScript number is modelled as `Option ℚ`: `some q` is a finite
  number with exact value `q`, `none` is a non-finite value (`NaN`,
  `Infinity`, `-Infinity`).  Arithmetic in the source only ever adds
  values that were first coerced to `0` when non-finite, so the collapse
  of the three non-finite values into one constructor is lossless here,
  and exact rational arithmetic never overflows (floating-point overflow
  is not modelled).
* A field of a raw JSON record is `Option α`: `none` means the property
  is absent (`undefined`) or `null`, which is what `??` tests for.
* A JavaScript `Map` is an insertion-ordered association list; `set` of a
  present key updates it in place, `set` of a new key appends at the end,
  exactly as `Map` iteration order behaves.
* `Array.prototype.sort` with a consistent comparator is, by the
  ECMAScript specification, the unique stable sort for that comparator;
  it is modelled by a stable insertion sort.
-/

/-- A JavaScript number: `some q` = finite with value `q`, `none` = non-finite. -/
abbrev JSNum := Option ℚ

/-- `Number.isFinite`. -/
def jsIsFinite (x : JSNum) : Bool := x.isSome

/-- `Math.round` on a finite number: round half toward `+∞`. -/
def jsRound (q : ℚ) : ℤ := ⌊q + 1/2⌋

/-- A decimal digit character, as matched by `\d`. -/
def isDigitChar (c : Char) : Bool := '0' ≤ c && c ≤ '9'

/-- The strict day pattern `^\d{4}-\d{2}-\d{2}$` used by the adapters. -/
def isDayPattern (s : String) : Bool :=
  match s.data with
  | [y1, y2, y3, y4, h1, m1, m2, h2, d1, d2] =>
      isDigitChar y1 && isDigitChar y2 && isDigitChar y3 && isDigitChar y4 &&
      h1 = '-' &&
      isDigitChar m1 && isDigitChar m2 &&
      h2 = '-' &&
      isDigitChar d1 && isDigitChar d2
  | _ => false

/-- Numeric value of a digit character. -/
def digitVal (c : Char) : ℕ := c.toNat - '0'.toNat

/-- Leap-year rule of the proleptic Gregorian calendar. -/
def isLeapYear (y : ℕ) : Bool := y % 4 = 0 && (y % 100 ≠ 0 || y % 400 = 0)

/-- Number of days of month `m` (1-12) of year `y`. -/
def daysInMonth (y m : ℕ) : ℕ :=
  if m = 2 then (if isLeapYear y then 29 else 28)
  else if m = 4 || m = 6 || m = 9 || m = 11 then 30
  else 31

/-- Parse a `YYYY-MM-DD` day string into `(year, month, day)`.  Returns
`none` when the string does not have the exact `\d{4}-\d{2}-\d{2}` shape
or when the month/day are out of calendar range: in both cases
`new Date(s + "T00:00:00Z")` is an Invalid Date (the string does not
match the ECMAScript Date Time String Format), so every `getUTC*`
accessor yields `NaN`. -/
def parseDayString (s : String) : Option (ℕ × ℕ × ℕ) :=
  match s.data with
  | [y1, y2, y3, y4, h1, m1, m2, h2, d1, d2] =>
      if isDigitChar y1 && isDigitChar y2 && isDigitChar y3 && isDigitChar y4 &&
         h1 = '-' && isDigitChar m1 && isDigitChar m2 &&
         h2 = '-' && isDigitChar d1 && isDigitChar d2 then
        let y := ((digitVal y1 * 10 + digitVal y2) * 10 + digitVal y3) * 10 + digitVal y4
        let m := digitVal m1 * 10 + digitVal m2
        let d := digitVal d1 * 10 + digitVal d2
        if 1 ≤ m && m ≤ 12 && 1 ≤ d && d ≤ daysInMonth y m then some (y, m, d) else none
      else none
  | _ => none

/-- `getYearFromISO` (`callsData.ts`):
`new Date(isoDate + "T00:00:00Z").getUTCFullYear()`.  `none` models the
`NaN` produced for an invalid date string. -/
def getYearFromISO (isoDate : String) : Option ℕ :=
  (parseDayString isoDate).map (fun p => p.1)

/-- `new Date(date + "T00:00:00Z").getUTCMonth() + 1` (1-12), `none` = `NaN`. -/
def getMonthFromISO (isoDate : String) : Option ℕ :=
  (parseDayString isoDate).map (fun p => p.2.1)

/- ## Call-log adapter (`callsData.ts`) -/

/-- A raw record of the calls summary JSON array.  Each numeric field
holds the value `Number(·)` would produce (`Option` outside: property
absent or `null`, which `?? 0` replaces by `0`).  The `date` field holds
the string `String(d.date)` produces (an absent date coerces to the
string `"undefined"`, which fails the day pattern).  The `total_*`
fields may be present in the raw input but are never read by the
adapter. -/
structure RawCallRecord where
  date : String
  incoming_count : Option JSNum
  outgoing_count : Option JSNum
  incoming_seconds : Option JSNum
  outgoing_seconds : Option JSNum
  total_count : Option JSNum
  total_seconds : Option JSNum
  total_minutes : Option JSNum
deriving DecidableEq, Repr

/-- The normalized `CallSummaryEntry` of `types/calls.ts`. -/
structure CallSummaryEntry where
  date : String
  incoming_count : JSNum
  outgoing_count : JSNum
  incoming_seconds : JSNum
  outgoing_seconds : JSNum
  total_count : JSNum
  total_seconds : JSNum
  total_minutes : JSNum
deriving DecidableEq, Repr

/-- `Number(field ?? 0)`: an absent/`null` property coerces to `0`. -/
def coerceField (f : Option JSNum) : JSNum := f.getD (some 0)

/-- `Number.isFinite(x) ? x : 0`. -/
def finiteOrZero (x : JSNum) : ℚ := x.getD 0

/-- `normalizeCallEntry` (`callsData.ts`, lines 21-36).  The input
`none` models a falsy array element (`if (!d) return null`). -/
def normalizeCallEntry (d : Option RawCallRecord) : Option CallSummaryEntry :=
  match d with
  | none => none
  | some r =>
      let ic := coerceField r.incoming_count
      let oc := coerceField r.outgoing_count
      let isec := coerceField r.incoming_seconds
      let osec := coerceField r.outgoing_seconds
      let total_count := finiteOrZero ic + finiteOrZero oc
      let total_seconds := finiteOrZero isec + finiteOrZero osec
      let total_minutes := (jsRound (total_seconds / 60) : ℚ)
      some { date := r.date
             incoming_count := ic
             outgoing_count := oc
             incoming_seconds := isec
             outgoing_seconds := osec
             total_count := some total_count
             total_seconds := some total_seconds
             total_minutes := some total_minutes }

/-- The record→entry pipeline of `loadCallsSummary` (`callsData.ts`,
lines 13-18): map `normalizeCallEntry` over the parsed JSON array, keep
an element iff it is truthy and
`Number.isFinite(total_seconds) && Number.isFinite(total_count)` and the
date matches the strict day pattern.  The transport and
shape-of-document stages of the async function are not part of this
per-record pipeline. -/
def loadCallsSummary (json : List (Option RawCallRecord)) : List CallSummaryEntry :=
  (json.map normalizeCallEntry).filterMap (fun d =>
    match d with
    | none => none
    | some e =>
        if jsIsFinite e.total_seconds && jsIsFinite e.total_count && isDayPattern e.date
        then some e else none)

/- ## `groupYears` (`callsData.ts`, lines 42-48) -/

/-- One `Set.prototype.add`: append the year unless already present
(first insertion wins, iteration follows insertion order). -/
def setAdd (seen : List ℕ) (y : ℕ) : List ℕ := if y ∈ seen then seen else seen ++ [y]

/-- Insert into an ascending-sorted list (models one comparator step of
`sort((a, b) => a - b)`). -/
def insAsc (x : ℕ) : List ℕ → List ℕ
  | [] => [x]
  | y :: ys => if x ≤ y then x :: y :: ys else y :: insAsc x ys

/-- Stable insertion sort ascending, the unique stable-sort result for
the consistent numeric comparator `(a, b) => a - b`. -/
def sortAscNat : List ℕ → List ℕ
  | [] => []
  | x :: xs => insAsc x (sortAscNat xs)

/-- `groupYears` (`callsData.ts`): add `getYearFromISO(e.date)` of every
entry to a `Set`, then sort ascending.  An invalid date makes
`getYearFromISO` yield `NaN`; the ECMAScript comparator `a - b` is then
inconsistent and the sorted position of `NaN` is implementation-defined,
so the model drops `NaN` years and the theorems restrict to entries
whose dates parse. -/
def groupYears (entries : List CallSummaryEntry) : List ℕ :=
  sortAscNat ((entries.filterMap (fun e => getYearFromISO e.date)).foldl setAdd [])

/- ## Helper lemmas -/

theorem normalizeCallEntry_totals_finite (d : Option RawCallRecord) (e : CallSummaryEntry)
    (h : normalizeCallEntry d = some e) :
    jsIsFinite e.total_count = true ∧ jsIsFinite e.total_seconds = true ∧
    jsIsFinite e.total_minutes = true := by
  cases d with
  | none => simp [normalizeCallEntry] at h
  | some r =>
      simp only [normalizeCallEntry, Option.some.injEq] at h
      subst h
      simp [jsIsFinite]

theorem insAsc_perm (x : ℕ) (l : List ℕ) : List.Perm (insAsc x l) (x :: l) := by
  induction l with
  | nil => exact List.Perm.refl _
  | cons y ys ih =>
      by_cases hxy : x ≤ y
      · simp only [insAsc, hxy, if_true]
        exact List.Perm.refl _
      · simp only [insAsc, hxy, if_false]
        exact (ih.cons y).trans (List.Perm.swap x y ys)

theorem sortAscNat_perm (l : List ℕ) : List.Perm (sortAscNat l) l := by
  induction l with
  | nil => exact List.Perm.refl _
  | cons x xs ih => exact (insAsc_perm x (sortAscNat xs)).trans (ih.cons x)

theorem insAsc_pairwise_le (x : ℕ) (l : List ℕ) (h : l.Pairwise (· ≤ ·)) :
    (insAsc x l).Pairwise (· ≤ ·) := by
  induction l with
  | nil => simp [insAsc]
  | cons y ys ih =>
      rcases List.pairwise_cons.mp h with ⟨hy, hys⟩
      by_cases hxy : x ≤ y
      · simp only [insAsc, hxy, if_true]
        refine List.pairwise_cons.mpr ⟨?_, h⟩
        intro a ha
        rcases List.mem_cons.mp ha with rfl | ha'
        · exact hxy
        · exact le_trans hxy (hy a ha')
      · simp only [insAsc, hxy, if_false]
        refine List.pairwise_cons.mpr ⟨?_, ih hys⟩
        intro a ha
        rcases List.mem_cons.mp ((insAsc_perm x ys).mem_iff.mp ha) with rfl | ha'
        · exact le_of_lt (lt_of_not_le hxy)
        · exact hy a ha'

theorem sortAscNat_pairwise_le (l : List ℕ) : (sortAscNat l).Pairwise (· ≤ ·) := by
  induction l with
  | nil => simp [sortAscNat]
  | cons x xs ih => exact insAsc_pairwise_le x (sortAscNat xs) ih

theorem mem_setAdd (seen : List ℕ) (a y : ℕ) : y ∈ setAdd seen a ↔ y ∈ seen ∨ y = a := by
  unfold setAdd
  by_cases h : a ∈ seen
  · simp only [h, if_true]
    constructor
    · exact Or.inl
    · intro hy
      rcases hy with hy | rfl
      · exact hy
      · exact h
  · simp [h]

theorem setAdd_nodup (seen : List ℕ) (a : ℕ) (h : seen.Nodup) : (setAdd seen a).Nodup := by
  unfold setAdd
  by_cases ha : a ∈ seen
  · simpa [ha] using h
  · simp [ha, List.nodup_append, h]

theorem foldl_setAdd_mem (l : List ℕ) (acc : List ℕ) (y : ℕ) :
    y ∈ l.foldl setAdd acc ↔ y ∈ acc ∨ y ∈ l := by
  induction l generalizing acc with
  | nil => simp
  | cons a as ih =>
      simp only [List.foldl_cons, ih, mem_setAdd, List.mem_cons]
      tauto

theorem foldl_setAdd_nodup (l : List ℕ) (acc : List ℕ) (h : acc.Nodup) :
    (l.foldl setAdd acc).Nodup := by
  induction l generalizing acc with
  | nil => simpa
  | cons a as ih => exact ih (setAdd acc a) (setAdd_nodup acc a h)

/- ## Test fixtures for the call-log adapter -/

/-- A raw call record whose `incoming_count` is present but coerces to a
non-finite number (`NaN`), while the date is well-formed. -/
def nanCountRecord : RawCallRecord :=
  { date := "2020-01-01"
    incoming_count := some none
    outgoing_count := some (some 1)
    incoming_seconds := some (some 2)
    outgoing_seconds := some (some 3)
    total_count := none
    total_seconds := none
    total_minutes := none }

/-- The entry `normalizeCallEntry` produces for `nanCountRecord`:
the raw `incoming_count` stays `NaN`, the totals treat it as `0`. -/
def nanCallEntry : CallSummaryEntry :=
  { date := "2020-01-01"
    incoming_count := none
    outgoing_count := some 1
    incoming_seconds := some 2
    outgoing_seconds := some 3
    total_count := some 1
    total_seconds := some 5
    total_minutes := some 0 }

/-- A raw call record with all four required fields finite (one absent,
hence defaulted to `0`) and raw `total_*` fields present but bogus. -/
def finiteCallRecord : RawCallRecord :=
  { date := "2021-02-03"
    incoming_count := some (some 2)
    outgoing_count := none
    incoming_seconds := some (some 90)
    outgoing_seconds := some (some 40)
    total_count := some (some 99)
    total_seconds := some (some 99)
    total_minutes := some (some 99) }

/-- Entries with repeated and unordered years, used as a fixture. -/
def yearsFixtureEntries : List CallSummaryEntry :=
  [ { nanCallEntry with date := "2021-01-02" }
  , { nanCallEntry with date := "2019-05-06" }
  , { nanCallEntry with date := "2021-03-04" } ]

/- ## Claim C1 -/

/-- C1 counterexample: the record `nanCountRecord` has a required
numeric field (`incoming_count`) that coerces to a non-finite number,
yet `loadCallsSummary` keeps it — the produced entry appears in the
output (with the non-finite raw field preserved), so a record with a
non-finite required field is *not* dropped. -/
theorem loadCallsSummary_keeps_nonfinite_field :
    coerceField nanCountRecord.incoming_count = none ∧
    (loadCallsSummary [some nanCountRecord]).map (fun e => e.incoming_count) = [none] ∧
    (loadCallsSummary [some nanCountRecord]).length = 1 := by
  decide

/-- C1 (amended): an entry appears in the output of `loadCallsSummary`
if and only if its record is truthy and its date matches the strict day
pattern; the finiteness filter is applied to the *derived*
`total_seconds`/`total_count` (which are always finite, because
non-finite components are coerced to `0` during summation), so
non-finite raw required fields do not cause a record to be dropped. -/
theorem loadCallsSummary_eq_filter_on_date (json : List (Option RawCallRecord)) :
    loadCallsSummary json = json.filterMap (fun d =>
      match normalizeCallEntry d with
      | none => none
      | some e => if isDayPattern e.date then some e else none) := by
  unfold loadCallsSummary
  rw [List.filterMap_map]
  apply List.filterMap_congr
  intro d _
  cases hd : normalizeCallEntry d with
  | none => simp [hd]
  | some e =>
      have hfin := normalizeCallEntry_totals_finite d e hd
      simp [hd, hfin.1, hfin.2.1]

/- ## Claim C5 -/

/-- C5: for every record all of whose required raw fields coerce to
finite numbers (and whose date passes the pattern, i.e. the record is
accepted), the produced entry has
`total_count = incoming_count + outgoing_count`,
`total_seconds = incoming_seconds + outgoing_seconds` and
`total_minutes = round(total_seconds / 60)`; the raw `total_*` fields of
the record (quantified freely inside `r`) are never consulted. -/
theorem normalizeCallEntry_derived_fields (r : RawCallRecord) (ic oc isec osec : ℚ)
    (hic : coerceField r.incoming_count = some ic)
    (hoc : coerceField r.outgoing_count = some oc)
    (his : coerceField r.incoming_seconds = some isec)
    (hos : coerceField r.outgoing_seconds = some osec)
    (hpat : isDayPattern r.date = true) :
    ∃ e : CallSummaryEntry, normalizeCallEntry (some r) = some e ∧
      loadCallsSummary [some r] = [e] ∧
      e.total_count = some (ic + oc) ∧
      e.total_seconds = some (isec + osec) ∧
      e.total_minutes = some ((jsRound ((isec + osec) / 60) : ℤ) : ℚ) := by
  have hne : normalizeCallEntry (some r) =
      some { date := r.date
             incoming_count := some ic
             outgoing_count := some oc
             incoming_seconds := some isec
             outgoing_seconds := some osec
             total_count := some (ic + oc)
             total_seconds := some (isec + osec)
             total_minutes := some ((jsRound ((isec + osec) / 60) : ℤ) : ℚ) } := by
    simp [normalizeCallEntry, hic, hoc, his, hos, finiteOrZero]
  refine ⟨_, hne, ?_, rfl, rfl, rfl⟩
  simp [loadCallsSummary, hne, jsIsFinite, hpat]

/-- C5 witness: the concrete accepted record `finiteCallRecord`
(incoming count 2, absent outgoing count, 90 s in, 40 s out) yields
totals 2, 130 and round(130/60) = 2, ignoring the bogus raw totals. -/
theorem normalizeCallEntry_derived_fields_witness :
    ∃ e : CallSummaryEntry, normalizeCallEntry (some finiteCallRecord) = some e ∧
      loadCallsSummary [some finiteCallRecord] = [e] ∧
      e.total_count = some (2 + 0) ∧
      e.total_seconds = some (90 + 40) ∧
      e.total_minutes = some ((jsRound ((90 + 40) / 60) : ℤ) : ℚ) :=
  normalizeCallEntry_derived_fields finiteCallRecord 2 0 90 40 rfl rfl rfl rfl (by decide)

/- ## Claim C10 -/

/-- C10: every entry returned by `loadCallsSummary` has finite
`total_count`, `total_seconds` and `total_minutes` (non-finite
components are coerced to `0` when the totals are summed), while the raw
per-direction fields of a returned entry can themselves be non-finite,
as the `nanCountRecord` run shows. -/
theorem loadCallsSummary_totals_finite :
    (∀ (json : List (Option RawCallRecord)) (e : CallSummaryEntry),
        e ∈ loadCallsSummary json →
        jsIsFinite e.total_count = true ∧ jsIsFinite e.total_seconds = true ∧
        jsIsFinite e.total_minutes = true) ∧
    (loadCallsSummary [some nanCountRecord]).map (fun e => e.incoming_count) = [none] := by
  constructor
  · intro json e he
    unfold loadCallsSummary at he
    rcases List.mem_filterMap.mp he with ⟨a, ha, hfa⟩
    rcases List.mem_map.mp ha with ⟨d, _, rfl⟩
    cases hnd : normalizeCallEntry d with
    | none => rw [hnd] at hfa; exact absurd hfa (by simp)
    | some e' =>
        rw [hnd] at hfa
        have hfa2 : (if (jsIsFinite e'.total_seconds && jsIsFinite e'.total_count &&
            isDayPattern e'.date) = true then some e' else none) = some e := hfa
        by_cases hc : (jsIsFinite e'.total_seconds && jsIsFinite e'.total_count &&
            isDayPattern e'.date) = true
        · rw [if_pos hc] at hfa2
          cases hfa2
          exact normalizeCallEntry_totals_finite d _ hnd
        · rw [if_neg hc] at hfa2
          cases hfa2
  · decide

theorem loadCallsSummary_nanRecord_eval :
    loadCallsSummary [some nanCountRecord] = [nanCallEntry] := by
  simp only [loadCallsSummary, normalizeCallEntry, nanCountRecord, nanCallEntry,
    coerceField, finiteOrZero, jsIsFinite, jsRound, List.map_cons, List.map_nil,
    List.filterMap_cons, List.filterMap_nil, Option.getD_some, Option.getD_none,
    Option.isSome_some, Bool.true_and, Bool.and_true]
  norm_num [isDayPattern, isDigitChar]
  decide

/-- C10 witness: the totals of the concrete returned entry
`nanCallEntry` are finite although its raw `incoming_count` is not. -/
theorem loadCallsSummary_totals_finite_witness :
    jsIsFinite nanCallEntry.total_count = true ∧
    jsIsFinite nanCallEntry.total_seconds = true ∧
    jsIsFinite nanCallEntry.total_minutes = true :=
  loadCallsSummary_totals_finite.1 [some nanCountRecord] nanCallEntry
    (by rw [loadCallsSummary_nanRecord_eval]; exact List.mem_singleton.mpr rfl)

/- ## Claim C8 -/

/-- C8: `groupYears` returns exactly the distinct years of the entries'
date keys, strictly ascending, with no duplicates, whatever the order or
repetition of the input dates.  The hypothesis confines the statement to
entries whose dates are valid day keys: for an invalid date the source's
`getYearFromISO` yields `NaN`, and ECMAScript leaves the sort order of
`NaN` under the comparator `a - b` implementation-defined. -/
theorem groupYears_ascending_distinct (entries : List CallSummaryEntry)
    (_hvalid : ∀ e ∈ entries, (getYearFromISO e.date).isSome = true) :
    (groupYears entries).Pairwise (· < ·) ∧
    ∀ y : ℕ, y ∈ groupYears entries ↔ ∃ e ∈ entries, getYearFromISO e.date = some y := by
  constructor
  · have hnd : (groupYears entries).Nodup :=
      (sortAscNat_perm _).nodup_iff.mpr (foldl_setAdd_nodup _ [] List.nodup_nil)
    exact ((sortAscNat_pairwise_le _).and hnd).imp (fun h => lt_of_le_of_ne h.1 h.2)
  · intro y
    unfold groupYears
    rw [(sortAscNat_perm _).mem_iff, foldl_setAdd_mem, List.mem_filterMap]
    simp

/-- C8 witness: three entries with unordered, repeated years 2021, 2019,
2021 produce the strictly ascending duplicate-free output. -/
theorem groupYears_ascending_distinct_witness :
    (groupYears yearsFixtureEntries).Pairwise (· < ·) ∧
    ∀ y : ℕ, y ∈ groupYears yearsFixtureEntries ↔
      ∃ e ∈ yearsFixtureEntries, getYearFromISO e.date = some y :=
  groupYears_ascending_distinct yearsFixtureEntries (by decide)

/- ## Genre aggregation (`traktGenreAggregation.ts`) -/

/-- A raw `GenreCount` of a runtime summary entry: the `count` a JS
number that may be non-finite (the accumulator checks
`Number.isFinite(g.count)` and contributes `0` otherwise). -/
structure GenreCountRaw where
  name : String
  count : JSNum
deriving DecidableEq, Repr

/-- `RuntimeSummaryEntry` (`types/trakt.ts`); `genres`/`subgenres` are
`Option` because the aggregators guard them with `?? []`. -/
structure RuntimeSummaryEntry where
  date : String
  total_runtime : JSNum
  genres : Option (List GenreCountRaw)
  subgenres : Option (List GenreCountRaw)
deriving DecidableEq, Repr

/-- An aggregated `GenreCount`: the accumulated count is always a
finite number (a sum of finite contributions starting from `0`). -/
structure GenreCount where
  name : String
  count : ℚ
deriving DecidableEq, Repr

/-- `MonthlyGenres` (`traktGenreAggregation.ts`): `year`/`month` are the
numbers `Number(ys)`/`Number(ms)` recovered from the bucket key; `none`
models the `NaN` produced for the bucket of invalid dates. -/
structure MonthlyGenres where
  year : Option ℕ
  month : Option ℕ
  genres : List GenreCount
deriving DecidableEq, Repr

/-- `Map.prototype.get`: value of the first (unique) matching key. -/
def alGet {K V : Type} [DecidableEq K] (m : List (K × V)) (k : K) : Option V :=
  match m with
  | [] => none
  | (k2, v) :: rest => if k2 = k then some v else alGet rest k

/-- `Map.prototype.set`: update a present key in place, append a new
key at the end — the `Map` insertion-order contract. -/
def alSet {K V : Type} [DecidableEq K] (m : List (K × V)) (k : K) (v : V) : List (K × V) :=
  match m with
  | [] => [(k, v)]
  | (k2, v2) :: rest => if k2 = k then (k, v) :: rest else (k2, v2) :: alSet rest k v

/-- The bucket key `km = ` the string `year + "-" + month` built from
`getYearFromISO(e.date)` and the UTC month of `e.date`.  For natural
year/month the string round-trips exactly through
`split("-")`/`Number`, so the key is modelled as the pair; `none` is
the single `"NaN-NaN"` key shared by all invalid dates. -/
def monthKey (date : String) : Option (ℕ × ℕ) :=
  (parseDayString date).map (fun p => (p.1, p.2.1))

/-- One step of the inner accumulation loop:
`prev = genreMap.get(g.name) ?? 0;`
`genreMap.set(g.name, prev + (Number.isFinite(g.count) ? g.count : 0))`. -/
def addGenre (inner : List (String × ℚ)) (g : GenreCountRaw) : List (String × ℚ) :=
  alSet inner g.name ((alGet inner g.name).getD 0 + g.count.getD 0)

/-- The outer accumulation map: bucket key → per-name running sums, in
`Map` insertion order. -/
abbrev MonthAcc := List ((Option (ℕ × ℕ)) × List (String × ℚ))

/-- Accumulate one entry: create the bucket's inner map when missing
(`if (!map.has(km)) map.set(km, new Map())`), then fold the entry's
category list (`field e ?? []`) into it. -/
def accumMonthEntry (field : RuntimeSummaryEntry → Option (List GenreCountRaw))
    (acc : MonthAcc) (e : RuntimeSummaryEntry) : MonthAcc :=
  let km := monthKey e.date
  let inner := (alGet acc km).getD []
  alSet acc km (((field e).getD []).foldl addGenre inner)

/-- The fully accumulated month map of `aggregateGenresByMonth` /
`aggregateSubgenresByMonth` (lines 13-26 / 47-60). -/
def monthAcc (field : RuntimeSummaryEntry → Option (List GenreCountRaw))
    (entries : List RuntimeSummaryEntry) : MonthAcc :=
  entries.foldl (accumMonthEntry field) []

/-- Insertion step of the stable sort for the comparator
`(a, b) => b.count - a.count`: `x` goes before `y` iff the comparator
is `≤ 0`, i.e. `y.count ≤ x.count`; on ties the earlier element stays
first (stability). -/
def insGenreDesc (x : GenreCount) : List GenreCount → List GenreCount
  | [] => [x]
  | y :: ys => if y.count ≤ x.count then x :: y :: ys else y :: insGenreDesc x ys

/-- Stable sort by count descending
(`.sort((a, b) => b.count - a.count)`). -/
def sortGenresDesc : List GenreCount → List GenreCount
  | [] => []
  | x :: xs => insGenreDesc x (sortGenresDesc xs)

/-- Materialize one bucket (lines 29-37):
`Array.from(genreMap.entries()).map(([name, count]) => ({name, count}))`
sorted by count descending, with year/month recovered from the key. -/
def bucketize (kv : (Option (ℕ × ℕ)) × List (String × ℚ)) : MonthlyGenres :=
  { year := kv.1.map (fun p => p.1)
    month := kv.1.map (fun p => p.2)
    genres := sortGenresDesc (kv.2.map (fun nc => { name := nc.1, count := nc.2 })) }

/-- Bucket materialization of `aggregateSubgenresByMonth`, additionally
truncated by `.slice(0, Math.max(0, limit))`. -/
def bucketizeTop (limit : ℤ) (kv : (Option (ℕ × ℕ)) × List (String × ℚ)) : MonthlyGenres :=
  { year := kv.1.map (fun p => p.1)
    month := kv.1.map (fun p => p.2)
    genres := (sortGenresDesc (kv.2.map (fun nc => { name := nc.1, count := nc.2 }))).take
      (max 0 limit).toNat }

/-- Comparator `(a, b) => (a.year - b.year) || (a.month - b.month)`
rendered as "`a` sorts no later than `b`"; a `NaN` year or month makes
the comparator return `NaN`, which sorting treats as `0` (equal). -/
def monthlyLe (a b : MonthlyGenres) : Bool :=
  match a.year, b.year with
  | some ya, some yb =>
      if ya = yb then
        match a.month, b.month with
        | some ma, some mb => decide (ma ≤ mb)
        | _, _ => true
      else decide (ya ≤ yb)
  | _, _ => true

/-- Insertion step of the stable year-then-month sort of the bucket
sequence. -/
def insMonthly (x : MonthlyGenres) : List MonthlyGenres → List MonthlyGenres
  | [] => [x]
  | y :: ys => if monthlyLe x y then x :: y :: ys else y :: insMonthly x ys

/-- Stable sort of the buckets by year ascending then month ascending. -/
def sortMonthly : List MonthlyGenres → List MonthlyGenres
  | [] => []
  | x :: xs => insMonthly x (sortMonthly xs)

/-- `aggregateGenresByMonth` (`traktGenreAggregation.ts`, lines 10-42). -/
def aggregateGenresByMonth (entries : List RuntimeSummaryEntry) : List MonthlyGenres :=
  sortMonthly ((monthAcc (fun e => e.genres) entries).map bucketize)

/-- `aggregateSubgenresByMonth` (`traktGenreAggregation.ts`, lines
44-76): same accumulation over `subgenres`, buckets truncated to the
top `limit` entries. -/
def aggregateSubgenresByMonth (entries : List RuntimeSummaryEntry) (limit : ℤ) :
    List MonthlyGenres :=
  sortMonthly ((monthAcc (fun e => e.subgenres) entries).map (bucketizeTop limit))

/-- `monthsForYear` (subgenre display component): index the buckets of
the given year by month (later buckets overwrite earlier ones), then
return months 1..12, substituting an empty-genre bucket when a month is
missing. -/
def monthsForYear (monthly : List MonthlyGenres) (year : ℕ) : List MonthlyGenres :=
  (List.range 12).map (fun i =>
    match (monthly.filter (fun mg =>
        decide (mg.year = some year) && decide (mg.month = some (i + 1)))).getLast? with
    | some mg => mg
    | none => { year := some year, month := some (i + 1), genres := [] })

/- ## Aggregation lemmas -/

theorem insGenreDesc_perm (x : GenreCount) (l : List GenreCount) :
    List.Perm (insGenreDesc x l) (x :: l) := by
  induction l with
  | nil => exact List.Perm.refl _
  | cons y ys ih =>
      by_cases hxy : y.count ≤ x.count
      · simp only [insGenreDesc, hxy, if_true]
        exact List.Perm.refl _
      · simp only [insGenreDesc, hxy, if_false]
        exact (ih.cons y).trans (List.Perm.swap x y ys)

theorem insGenreDesc_pairwise (x : GenreCount) (l : List GenreCount)
    (h : l.Pairwise (fun a b => b.count ≤ a.count)) :
    (insGenreDesc x l).Pairwise (fun a b => b.count ≤ a.count) := by
  induction l with
  | nil => simp [insGenreDesc]
  | cons y ys ih =>
      rcases List.pairwise_cons.mp h with ⟨hy, hys⟩
      by_cases hxy : y.count ≤ x.count
      · simp only [insGenreDesc, hxy, if_true]
        refine List.pairwise_cons.mpr ⟨?_, h⟩
        intro a ha
        rcases List.mem_cons.mp ha with rfl | ha2
        · exact hxy
        · exact le_trans (hy a ha2) hxy
      · simp only [insGenreDesc, hxy, if_false]
        refine List.pairwise_cons.mpr ⟨?_, ih hys⟩
        intro a ha
        rcases List.mem_cons.mp ((insGenreDesc_perm x ys).mem_iff.mp ha) with rfl | ha2
        · exact le_of_lt (lt_of_not_le hxy)
        · exact hy a ha2

theorem sortGenresDesc_pairwise (l : List GenreCount) :
    (sortGenresDesc l).Pairwise (fun a b => b.count ≤ a.count) := by
  induction l with
  | nil => simp [sortGenresDesc]
  | cons x xs ih => exact insGenreDesc_pairwise x (sortGenresDesc xs) ih

theorem filter_insGenreDesc (x : GenreCount) (l : List GenreCount) (c : ℚ) :
    (insGenreDesc x l).filter (fun g => decide (g.count = c)) =
      if x.count = c then x :: l.filter (fun g => decide (g.count = c))
      else l.filter (fun g => decide (g.count = c)) := by
  induction l with
  | nil =>
      by_cases hx : x.count = c
      · simp [insGenreDesc, List.filter, hx]
      · simp [insGenreDesc, List.filter, hx]
  | cons y ys ih =>
      by_cases hxy : y.count ≤ x.count
      · have hins : insGenreDesc x (y :: ys) = x :: y :: ys := by
          simp [insGenreDesc, hxy]
        rw [hins]
        by_cases hx : x.count = c <;> by_cases hy : y.count = c <;>
          simp [List.filter_cons, hx, hy]
      · have hins : insGenreDesc x (y :: ys) = y :: insGenreDesc x ys := by
          simp [insGenreDesc, hxy]
        rw [hins]
        have hxlt : x.count < y.count := lt_of_not_le hxy
        by_cases hx : x.count = c
        · have hy : ¬(y.count = c) := by
            intro hyc
            have hxy2 : y.count = x.count := hyc.trans hx.symm
            rw [hxy2] at hxlt
            exact lt_irrefl _ hxlt
          simp [List.filter_cons, hy, ih, hx]
        · by_cases hy : y.count = c <;> simp [List.filter_cons, hy, ih, hx]

theorem sortGenresDesc_filter (l : List GenreCount) (c : ℚ) :
    (sortGenresDesc l).filter (fun g => decide (g.count = c)) =
      l.filter (fun g => decide (g.count = c)) := by
  induction l with
  | nil => rfl
  | cons x xs ih =>
      by_cases hx : x.count = c
      · simp [sortGenresDesc, filter_insGenreDesc, hx, List.filter, ih]
      · simp [sortGenresDesc, filter_insGenreDesc, hx, List.filter, ih]

theorem mem_insMonthly (x a : MonthlyGenres) (l : List MonthlyGenres) :
    a ∈ insMonthly x l ↔ a = x ∨ a ∈ l := by
  induction l with
  | nil => simp [insMonthly]
  | cons y ys ih =>
      by_cases hxy : monthlyLe x y = true
      · have hins : insMonthly x (y :: ys) = x :: y :: ys := by
          simp [insMonthly, hxy]
        rw [hins]
        simp only [List.mem_cons]
      · have hins : insMonthly x (y :: ys) = y :: insMonthly x ys := by
          simp [insMonthly, hxy]
        rw [hins]
        simp only [List.mem_cons, ih]
        tauto

theorem mem_sortMonthly (a : MonthlyGenres) (l : List MonthlyGenres) :
    a ∈ sortMonthly l ↔ a ∈ l := by
  induction l with
  | nil => simp [sortMonthly]
  | cons x xs ih =>
      simp only [sortMonthly, mem_insMonthly, List.mem_cons, ih]

/- ## Claim C2 -/

/-- C2: every bucket of `aggregateGenresByMonth` has its category list
sorted by count descending (any earlier element's count is `≥` any
later element's count), and categories with equal counts keep the order
of the bucket's accumulation map — the order in which their names first
appeared during accumulation, since `Map.set` appends new names and
updates existing ones in place. -/
theorem aggregateGenresByMonth_sorted_stable (entries : List RuntimeSummaryEntry)
    (b : MonthlyGenres) (hb : b ∈ aggregateGenresByMonth entries) :
    b.genres.Pairwise (fun A B => B.count ≤ A.count) ∧
    ∃ kv ∈ monthAcc (fun e => e.genres) entries, b = bucketize kv ∧
      ∀ c : ℚ, b.genres.filter (fun g => decide (g.count = c)) =
        (kv.2.map (fun nc => GenreCount.mk nc.1 nc.2)).filter (fun g => decide (g.count = c)) := by
  unfold aggregateGenresByMonth at hb
  rcases List.mem_map.mp ((mem_sortMonthly b _).mp hb) with ⟨kv, hkv, rfl⟩
  constructor
  · exact sortGenresDesc_pairwise _
  · exact ⟨kv, hkv, rfl, fun c => sortGenresDesc_filter _ c⟩

theorem mem_of_getLast?_eq {α : Type} (l : List α) (a : α) (h : l.getLast? = some a) :
    a ∈ l := by
  rcases List.mem_getLast?_eq_getLast (Option.mem_def.mpr h) with ⟨hne, rfl⟩
  exact List.getLast_mem hne

/- ## Claim C2 witness -/

/-- The spec's reference scenario: two January-2020 entries whose
accumulated genre counts tie at 3, Drama seen first. -/
def scenarioEntries : List RuntimeSummaryEntry :=
  [ { date := "2020-01-01", total_runtime := some 30
    , genres := some [{ name := "Drama", count := some 2 }], subgenres := none }
  , { date := "2020-01-15", total_runtime := some 45
    , genres := some [{ name := "Drama", count := some 1 }
                     , { name := "Comedy", count := some 3 }]
    , subgenres := none } ]

/-- The single bucket the scenario aggregates to: Drama before Comedy
on the 3-3 tie because Drama's name appeared first. -/
def scenarioBucket : MonthlyGenres :=
  { year := some 2020, month := some 1
  , genres := [{ name := "Drama", count := 3 }, { name := "Comedy", count := 3 }] }

theorem aggregateGenres_scenario_eval :
    aggregateGenresByMonth scenarioEntries = [scenarioBucket] := by
  have hk1 : monthKey "2020-01-01" = some (2020, 1) := rfl
  have hk2 : monthKey "2020-01-15" = some (2020, 1) := rfl
  simp [aggregateGenresByMonth, scenarioEntries, scenarioBucket, monthAcc,
    accumMonthEntry, addGenre, alGet, alSet, hk1, hk2, bucketize, sortGenresDesc,
    insGenreDesc, sortMonthly, insMonthly, monthlyLe]
  norm_num

/-- C2 witness: the scenario bucket is sorted descending and its 3-3
tie keeps first-appearance order. -/
theorem aggregateGenresByMonth_sorted_stable_witness :
    scenarioBucket.genres.Pairwise (fun A B => B.count ≤ A.count) ∧
    ∃ kv ∈ monthAcc (fun e => e.genres) scenarioEntries, scenarioBucket = bucketize kv ∧
      ∀ c : ℚ, scenarioBucket.genres.filter (fun g => decide (g.count = c)) =
        (kv.2.map (fun nc => GenreCount.mk nc.1 nc.2)).filter (fun g => decide (g.count = c)) :=
  aggregateGenresByMonth_sorted_stable scenarioEntries scenarioBucket
    (by rw [aggregateGenres_scenario_eval]; exact List.mem_singleton.mpr rfl)

/- ## Claim C7 -/

/-- C7: with a non-negative limit `K`, every bucket of
`aggregateSubgenresByMonth` holds at most `K` categories, namely the
prefix of length `K` of the bucket's descending-sorted accumulation,
each kept category's count dominating every dropped one; `K = 0` gives
an empty list (and a value is always returned — no error). -/
theorem aggregateSubgenresByMonth_topK (entries : List RuntimeSummaryEntry) (limit : ℤ)
    (b : MonthlyGenres) (hK : 0 ≤ limit) (hb : b ∈ aggregateSubgenresByMonth entries limit) :
    b.genres.length ≤ limit.toNat ∧
    b.genres.Pairwise (fun A B => B.count ≤ A.count) ∧
    (∃ kv ∈ monthAcc (fun e => e.subgenres) entries,
      b.genres =
        (sortGenresDesc (kv.2.map (fun nc => GenreCount.mk nc.1 nc.2))).take limit.toNat ∧
      ∀ g1 ∈ b.genres,
        ∀ g2 ∈ (sortGenresDesc (kv.2.map (fun nc => GenreCount.mk nc.1 nc.2))).drop limit.toNat,
          g2.count ≤ g1.count) ∧
    (limit = 0 → b.genres = []) := by
  unfold aggregateSubgenresByMonth at hb
  rcases List.mem_map.mp ((mem_sortMonthly b _).mp hb) with ⟨kv, hkv, rfl⟩
  have hmax : max 0 limit = limit := max_eq_right hK
  have hgen : (bucketizeTop limit kv).genres =
      (sortGenresDesc (kv.2.map (fun nc => GenreCount.mk nc.1 nc.2))).take limit.toNat := by
    simp [bucketizeTop, hmax]
  refine ⟨?_, ?_, ⟨kv, hkv, hgen, ?_⟩, ?_⟩
  · rw [hgen, List.length_take]
    exact min_le_left _ _
  · rw [hgen]
    exact (sortGenresDesc_pairwise _).sublist (List.take_sublist _ _)
  · rw [hgen]
    intro g1 hg1 g2 hg2
    have hpw := sortGenresDesc_pairwise (kv.2.map (fun nc => GenreCount.mk nc.1 nc.2))
    rw [← List.take_append_drop limit.toNat
      (sortGenresDesc (kv.2.map (fun nc => GenreCount.mk nc.1 nc.2)))] at hpw
    exact (List.pairwise_append.mp hpw).2.2 g1 hg1 g2 hg2
  · intro h0
    rw [hgen, h0]
    simp

/-- Fixture: one entry with two subgenres of distinct counts. -/
def subgenreEntries : List RuntimeSummaryEntry :=
  [ { date := "2021-06-05", total_runtime := some 45, genres := none
    , subgenres := some [ { name := "Space", count := some 2 }
                        , { name := "Heist", count := some 3 } ] } ]

/-- The single truncated bucket for `subgenreEntries` with limit 1. -/
def subgenreBucket : MonthlyGenres :=
  { year := some 2021, month := some 6, genres := [{ name := "Heist", count := 3 }] }

theorem aggregateSubgenres_fixture_eval :
    aggregateSubgenresByMonth subgenreEntries 1 = [subgenreBucket] := by
  have hk1 : monthKey "2021-06-05" = some (2021, 6) := rfl
  simp [aggregateSubgenresByMonth, subgenreEntries, subgenreBucket, monthAcc,
    accumMonthEntry, addGenre, alGet, alSet, hk1, bucketizeTop, sortGenresDesc,
    insGenreDesc, sortMonthly, insMonthly, monthlyLe]
  norm_num

/-- C7 witness: limit 1 on the two-subgenre fixture keeps exactly the
higher-count subgenre. -/
theorem aggregateSubgenresByMonth_topK_witness :
    subgenreBucket.genres.length ≤ (1 : ℤ).toNat ∧
    subgenreBucket.genres.Pairwise (fun A B => B.count ≤ A.count) ∧
    (∃ kv ∈ monthAcc (fun e => e.subgenres) subgenreEntries,
      subgenreBucket.genres =
        (sortGenresDesc (kv.2.map (fun nc => GenreCount.mk nc.1 nc.2))).take (1 : ℤ).toNat ∧
      ∀ g1 ∈ subgenreBucket.genres,
        ∀ g2 ∈ (sortGenresDesc (kv.2.map (fun nc => GenreCount.mk nc.1 nc.2))).drop
          (1 : ℤ).toNat, g2.count ≤ g1.count) ∧
    ((1 : ℤ) = 0 → subgenreBucket.genres = []) :=
  aggregateSubgenresByMonth_topK subgenreEntries 1 subgenreBucket (by norm_num)
    (by rw [aggregateSubgenres_fixture_eval]; exact List.mem_singleton.mpr rfl)

/- ## Claim C4 -/

/-- Two entries, January and March 2020: month 2 lies inside the
observed range but has no contributing entry. -/
def gapEntries : List RuntimeSummaryEntry :=
  [ { date := "2020-01-10", total_runtime := some 30
    , genres := some [{ name := "Drama", count := some 2 }], subgenres := none }
  , { date := "2020-03-05", total_runtime := some 20
    , genres := some [{ name := "Comedy", count := some 1 }], subgenres := none } ]

/-- C4 counterexample: `aggregateGenresByMonth` emits no bucket at all
for February 2020 — the bucket sequence for `gapEntries` covers months
1 and 3 only, with no empty bucket in between, so the function itself
does not make the range contiguous. -/
theorem aggregateGenresByMonth_skips_empty_months :
    (aggregateGenresByMonth gapEntries).map (fun b => (b.year, b.month)) =
      [(some 2020, some 1), (some 2020, some 3)] ∧
    (aggregateGenresByMonth gapEntries).filter
      (fun b => decide (b.month = some 2)) = [] := by
  have hk1 : monthKey "2020-01-10" = some (2020, 1) := rfl
  have hk2 : monthKey "2020-03-05" = some (2020, 3) := rfl
  constructor
  · simp [aggregateGenresByMonth, gapEntries, monthAcc, accumMonthEntry, addGenre,
      alGet, alSet, hk1, hk2, bucketize, sortMonthly, insMonthly, monthlyLe]
  · simp [aggregateGenresByMonth, gapEntries, monthAcc, accumMonthEntry, addGenre,
      alGet, alSet, hk1, hk2, bucketize, sortMonthly, insMonthly, monthlyLe]

/-- C4 (amended): the contiguity lives in the consumer `monthsForYear`:
for any bucket list and year it returns exactly 12 buckets, months 1
through 12 in order, and every month with no matching bucket in the
input is an empty-genre bucket. -/
theorem monthsForYear_fills_all_months (monthly : List MonthlyGenres) (year : ℕ) :
    (monthsForYear monthly year).length = 12 ∧
    (monthsForYear monthly year).map (fun mg => mg.month) =
      (List.range 12).map (fun i => some (i + 1)) ∧
    ∀ i, i < 12 →
      (∀ mg ∈ monthly, ¬(mg.year = some year ∧ mg.month = some (i + 1))) →
      (monthsForYear monthly year)[i]? =
        some { year := some year, month := some (i + 1), genres := [] } := by
  refine ⟨by simp [monthsForYear], ?_, ?_⟩
  · unfold monthsForYear
    rw [List.map_map]
    apply List.map_congr_left
    intro i _
    simp only [Function.comp]
    cases hlast : (monthly.filter (fun mg =>
        decide (mg.year = some year) && decide (mg.month = some (i + 1)))).getLast? with
    | none => simp
    | some mg =>
        have hmem := mem_of_getLast?_eq _ _ hlast
        have hcond := List.of_mem_filter hmem
        simp only [Bool.and_eq_true, decide_eq_true_eq] at hcond
        simp [hcond.2]
  · intro i hi hnone
    have hfil : monthly.filter (fun mg =>
        decide (mg.year = some year) && decide (mg.month = some (i + 1))) = [] := by
      apply List.filter_eq_nil_iff.mpr
      intro mg hmg
      simp only [Bool.and_eq_true, decide_eq_true_eq, not_and]
      intro h1 h2
      exact hnone mg hmg ⟨h1, h2⟩
    unfold monthsForYear
    rw [List.getElem?_map]
    have hrange : (List.range 12)[i]? = some i := by
      simp [List.getElem?_range, hi]
    rw [hrange, Option.map_some', hfil]
    rfl

/-- Bucket list with months 1 and 3 of 2020 present, month 2 absent. -/
def gapMonthly : List MonthlyGenres :=
  [ { year := some 2020, month := some 1, genres := [] }
  , { year := some 2020, month := some 3, genres := [] } ]

/-- C4 witness: on `gapMonthly`, `monthsForYear` yields 12 buckets and
substitutes the empty bucket for the missing February. -/
theorem monthsForYear_fills_all_months_witness :
    (monthsForYear gapMonthly 2020).length = 12 ∧
    (monthsForYear gapMonthly 2020)[1]? =
      some { year := some 2020, month := some 2, genres := [] } :=
  ⟨(monthsForYear_fills_all_months gapMonthly 2020).1,
   (monthsForYear_fills_all_months gapMonthly 2020).2.2 1 (by norm_num) (by decide)⟩

/- ## Paginated acquisition loop (`src/unnamed/part_001`) -/

/-- Proleptic-Gregorian civil date of a day number relative to
1970-01-01 (the computation behind `Date.prototype.getUTCFullYear`,
`getUTCMonth`, `getUTCDate`). -/
def civilFromDays (z0 : ℤ) : ℤ × ℕ × ℕ :=
  let z : ℤ := z0 + 719468
  let era : ℤ := Int.fdiv z 146097
  let doe : ℕ := (z - era * 146097).toNat
  let yoe : ℕ := (doe - doe / 1460 + doe / 36524 - doe / 146096) / 365
  let y : ℤ := (yoe : ℤ) + era * 400
  let doy : ℕ := doe - (365 * yoe + yoe / 4 - yoe / 100)
  let mp : ℕ := (5 * doy + 2) / 153
  let d : ℕ := doy - (153 * mp + 2) / 5 + 1
  let m : ℕ := if mp < 10 then mp + 3 else mp - 9
  (if mp < 10 then y else y + 1, m, d)

/-- `String(n).padStart(2, "0")` for the month/day components. -/
def pad2 (n : ℕ) : String := if n < 10 then "0" ++ toString n else toString n

/-- The local-day key `yyyy-mm-dd` built from a millisecond epoch time:
`new Date(t)` followed by `getUTCFullYear`/`getUTCMonth`/`getUTCDate`
and the template string of the loop body. -/
def dayKey (t : ℤ) : String :=
  let p := civilFromDays (Int.fdiv t 86400000)
  toString p.1 ++ "-" ++ pad2 p.2.1 ++ "-" ++ pad2 p.2.2

/-- A page item: `timestamp` is `none` when the item is nullish or its
timestamp is absent/non-numeric (then `item?.timestamp >= startMs` is
false); `timezoneOffset` is `none` unless the field is a number
(`typeof item.timezoneOffset === "number"`). -/
structure PItem where
  timestamp : Option ℤ
  timezoneOffset : Option ℤ
deriving DecidableEq, Repr

/-- One fetched page: `items` (`page?.items ?? []`), the opaque
`nextPageId` cursor (`none` = null/absent) and the
`lastItemTimestamp` hint (`none` when absent or not a number). -/
structure PPage where
  items : List PItem
  nextPageId : Option ℕ
  lastItemTimestamp : Option ℤ
deriving DecidableEq, Repr

/-- Process one item of the per-item counting loop: a qualifying item
(timestamp present and `≥ startMs`) increments the count of its
local-day key, computed by adding the item's own timezone offset
(`0` when absent) before the UTC calendar split. -/
def countItem (startMs : ℤ) (acc : List (String × ℕ)) (it : PItem) : List (String × ℕ) :=
  match it.timestamp with
  | some t =>
      if startMs ≤ t then
        let key := dayKey (t + it.timezoneOffset.getD 0)
        alSet acc key ((alGet acc key).getD 0 + 1)
      else acc
  | none => acc

/-- The `for (const item of items)` loop of one page. -/
def processPage (startMs : ℤ) (p : PPage) (acc : List (String × ℕ)) : List (String × ℕ) :=
  p.items.foldl (countItem startMs) acc

/-- `shouldStop`: the `lastItemTimestamp` hint is present (a number)
and strictly below the cutoff. -/
def stopHint (startMs : ℤ) (p : PPage) : Bool :=
  match p.lastItemTimestamp with
  | some t => decide (t < startMs)
  | none => false

/-- The loop leaves page `p` as its last request iff the hint fires
(`break`) or the returned cursor is null (`while (nextPageId)`). -/
def stopCond (startMs : ℤ) (p : PPage) : Bool :=
  stopHint startMs p || decide (p.nextPageId = none)

/-- The `do … while (nextPageId)` loop, run against the sequence of
pages the feed would serve to successive requests.  Returns the final
count map and the number of page requests issued.  Each page is first
fully counted, then `shouldStop` is checked (`break`), then the cursor
(`while` condition). -/
def runPages (startMs : ℤ) : List PPage → List (String × ℕ) → List (String × ℕ) × ℕ
  | [], acc => (acc, 0)
  | p :: rest, acc =>
      let acc2 := processPage startMs p acc
      if stopHint startMs p then (acc2, 1)
      else
        match p.nextPageId with
        | none => (acc2, 1)
        | some _ =>
            let r := runPages startMs rest acc2
            (r.1, r.2 + 1)

/-- Whether an item is counted: `item?.timestamp >= startMs`. -/
def itemQualifies (startMs : ℤ) (it : PItem) : Bool :=
  match it.timestamp with
  | some t => decide (startMs ≤ t)
  | none => false

/-- The local-day key an item is counted under (when its timestamp is
present): epoch timestamp plus the item's own timezone offset
(`0` when absent), split as a UTC calendar day. -/
def itemDayKey (it : PItem) : Option String :=
  it.timestamp.map (fun t => dayKey (t + it.timezoneOffset.getD 0))

theorem alGet_alSet {K V : Type} [DecidableEq K] (m : List (K × V)) (k k2 : K) (v : V) :
    alGet (alSet m k v) k2 = if k = k2 then some v else alGet m k2 := by
  induction m with
  | nil => simp [alSet, alGet]
  | cons kv rest ih =>
      rcases kv with ⟨k3, v3⟩
      by_cases h3 : k3 = k
      · subst h3
        by_cases h2 : k3 = k2
        · subst h2
          simp [alSet, alGet]
        · simp [alSet, alGet, h2]
      · by_cases h2 : k3 = k2
        · subst h2
          have hne : ¬(k = k3) := fun h => h3 h.symm
          simp [alSet, alGet, h3, hne]
        · simp [alSet, alGet, h3, h2, ih]

theorem alGet_countItem (startMs : ℤ) (acc : List (String × ℕ)) (it : PItem) (k : String) :
    (alGet (countItem startMs acc it) k).getD 0 =
      (alGet acc k).getD 0 +
        (if itemQualifies startMs it && decide (itemDayKey it = some k) then 1 else 0) := by
  cases hts : it.timestamp with
  | none => simp [countItem, itemQualifies, hts]
  | some t =>
      by_cases hq : startMs ≤ t
      · by_cases hk : dayKey (t + it.timezoneOffset.getD 0) = k
        · simp [countItem, itemQualifies, itemDayKey, hts, hq, hk, alGet_alSet]
        · simp [countItem, itemQualifies, itemDayKey, hts, hq, hk, alGet_alSet]
      · simp [countItem, itemQualifies, itemDayKey, hts, hq]

/- ## Claim C6 -/

/-- C6: over one page, the count of every local-day key `k` grows by
exactly the number of page items whose timestamp is present and at or
after the cutoff and whose day key — epoch timestamp plus the item's
own `timezoneOffset` (`0` when absent), split as a UTC calendar day —
is `k`; items below the cutoff (or without a numeric timestamp)
contribute nothing. -/
theorem processPage_counts (startMs : ℤ) (p : PPage) (acc : List (String × ℕ)) (k : String) :
    (alGet (processPage startMs p acc) k).getD 0 =
      (alGet acc k).getD 0 +
        p.items.countP (fun it => itemQualifies startMs it && decide (itemDayKey it = some k)) := by
  rcases p with ⟨items, next, last⟩
  simp only [processPage]
  induction items generalizing acc with
  | nil => simp
  | cons it its ih =>
      simp only [List.foldl_cons, List.countP_cons, ih (countItem startMs acc it),
        alGet_countItem]
      omega

/- ## Claim C3 -/

/-- C3: run against any feed response sequence, the loop consumes pages
up to and including the first page satisfying the stop condition — the
`lastItemTimestamp` hint present and strictly below the cutoff, or a
null `nextPageId` — counts that page's qualifying items, and issues
exactly that many requests, so no request follows a null cursor or a
fired hint. -/
theorem runPages_stops_at_first (startMs : ℤ) (pages : List PPage)
    (acc : List (String × ℕ)) (i : ℕ) (hi : i < pages.length)
    (hstop : stopCond startMs (pages.get ⟨i, hi⟩) = true)
    (hbefore : ∀ j (hj : j < i), stopCond startMs (pages.get ⟨j, Nat.lt_trans hj hi⟩) = false) :
    runPages startMs pages acc =
      ((pages.take (i + 1)).foldl (fun a p => processPage startMs p a) acc, i + 1) := by
  induction pages generalizing i acc with
  | nil => exact absurd hi (Nat.not_lt_zero i)
  | cons p rest ih =>
      cases i with
      | zero =>
          simp only [List.get] at hstop
          simp only [List.take, List.foldl_cons, List.foldl_nil]
          by_cases hh : stopHint startMs p = true
          · simp [runPages, hh]
          · have hnext : p.nextPageId = none := by
              have hsc := hstop
              simp only [stopCond, Bool.or_eq_true, decide_eq_true_eq] at hsc
              rcases hsc with h | h
              · exact absurd h hh
              · exact h
            simp [runPages, hh, hnext]
      | succ i2 =>
          have h0 : stopCond startMs p = false := hbefore 0 (Nat.succ_pos i2)
          have hh : stopHint startMs p = false := by
            rcases Bool.or_eq_false_iff.mp h0 with ⟨h1, _⟩
            exact h1
          have hnext : ¬(p.nextPageId = none) := by
            rcases Bool.or_eq_false_iff.mp h0 with ⟨_, h2⟩
            simpa using h2
          rcases Option.ne_none_iff_exists.mp hnext with ⟨c, hc⟩
          have hi2 : i2 < rest.length := Nat.lt_of_succ_lt_succ hi
          have hstop2 : stopCond startMs (rest.get ⟨i2, hi2⟩) = true := hstop
          have hbefore2 : ∀ j (hj : j < i2),
              stopCond startMs (rest.get ⟨j, Nat.lt_trans hj hi2⟩) = false := by
            intro j hj
            exact hbefore (j + 1) (Nat.succ_lt_succ hj)
          have hrec := ih (processPage startMs p acc) i2 hi2 hstop2 hbefore2
          simp [runPages, hh, ← hc, hrec]

/-- Feed fixture: three pages; the second page both carries a hint
below the cutoff (2020-01-01 UTC) and qualifying items, the third page
must never be requested. -/
def feedPages : List PPage :=
  [ { items := [ { timestamp := some 1577923200000, timezoneOffset := some 19800000 } ]
    , nextPageId := some 1, lastItemTimestamp := some 1577923200000 }
  , { items := [ { timestamp := some 1577836800000, timezoneOffset := none }
               , { timestamp := some 1500000000000, timezoneOffset := none } ]
    , nextPageId := some 2, lastItemTimestamp := some 1500000000000 }
  , { items := [ { timestamp := some 1400000000000, timezoneOffset := none } ]
    , nextPageId := none, lastItemTimestamp := some 1400000000000 } ]

/-- C3 witness: on `feedPages` with cutoff 2020-01-01, the loop stops
after the second page (whose hint is below the cutoff), having counted
it, and issues exactly 2 requests. -/
theorem runPages_stops_at_first_witness :
    runPages 1577836800000 feedPages [] =
      ((feedPages.take 2).foldl (fun a p => processPage 1577836800000 p a) [], 2) :=
  runPages_stops_at_first 1577836800000 feedPages [] 1 (by decide)
    (by decide) (by decide)

/- ## Google Photos adapter (`googlePhotosData.ts`) -/

/-- A raw record of the array-shaped photos document: `date` holds what
`String(d.date)` produces, `count` what `Number(d.count)` produces. -/
structure PhotosRawRec where
  date : String
  count : JSNum
deriving DecidableEq, Repr

/-- `GooglePhotosSummaryEntry`: a date key plus a count. -/
structure GooglePhotosSummaryEntry where
  date : String
  count : JSNum
deriving DecidableEq, Repr

/-- The parsed JSON document: an array of records, a non-null non-array
object (its `Object.entries`, values already through `Number`), or any
other value (`null`, number, string, boolean), for which both
`Array.isArray(json)` and `json && typeof json === "object"` fail. -/
inductive PhotosJson where
  | arr (items : List PhotosRawRec)
  | obj (kvs : List (String × JSNum))
  | prim
deriving DecidableEq, Repr

/-- The transport response `fetch` resolves to: `ok`/`status`/
`statusText` plus the parsed body. -/
structure PhotosResponse where
  ok : Bool
  status : ℕ
  statusText : String
  json : PhotosJson
deriving DecidableEq, Repr

/-- The transport failure message, including the status. -/
def photosTransportErrorMsg (status : ℕ) (statusText : String) : String :=
  "Failed to load Google Photos summary: " ++ toString status ++ " " ++ statusText

/-- The document-shape failure message. -/
def photosShapeErrorMsg : String :=
  "Invalid Google Photos summary shape: expected array or date-keyed object"

/-- `loadPhotosSummary` (`googlePhotosData.ts`, lines 3-23): throw on a
non-ok response (status in the message); accept an array or a
date-keyed object, mapping and then silently filtering records by
finite count and strict day pattern; throw the shape message
otherwise. -/
def loadPhotosSummary (resp : PhotosResponse) :
    Except String (List GooglePhotosSummaryEntry) :=
  if resp.ok then
    match resp.json with
    | PhotosJson.arr items =>
        Except.ok ((items.map (fun d => GooglePhotosSummaryEntry.mk d.date d.count)).filter
          (fun d => jsIsFinite d.count && isDayPattern d.date))
    | PhotosJson.obj kvs =>
        Except.ok ((kvs.map (fun kv => GooglePhotosSummaryEntry.mk kv.1 kv.2)).filter
          (fun d => jsIsFinite d.count && isDayPattern d.date))
    | PhotosJson.prim => Except.error photosShapeErrorMsg
  else Except.error (photosTransportErrorMsg resp.status resp.statusText)

theorem photosTransportMsg_ne_shapeMsg (status : ℕ) (statusText : String) :
    photosTransportErrorMsg status statusText ≠ photosShapeErrorMsg := by
  intro heq
  have hd := congrArg String.data heq
  simp only [photosTransportErrorMsg, photosShapeErrorMsg, String.data_append] at hd
  simp only [List.cons_append] at hd
  injection hd with h1 _
  exact absurd h1 (by decide)

/- ## Claim C9 -/

/-- C9: `loadPhotosSummary` fails exactly on a non-ok response (with
the status in the message) or a document that is neither an array nor a
non-null object (with the shape message); the two messages are
distinguishable; and for an array or object document every record —
malformed ones included — is handled by the silent filter, never by an
error. -/
theorem loadPhotosSummary_error_conditions (resp : PhotosResponse) :
    ((∃ m, loadPhotosSummary resp = Except.error m) ↔
      (resp.ok = false ∨ resp.json = PhotosJson.prim)) ∧
    (resp.ok = false →
      loadPhotosSummary resp =
        Except.error (photosTransportErrorMsg resp.status resp.statusText)) ∧
    (resp.ok = true → resp.json = PhotosJson.prim →
      loadPhotosSummary resp = Except.error photosShapeErrorMsg) ∧
    photosTransportErrorMsg resp.status resp.statusText ≠ photosShapeErrorMsg ∧
    (∀ items, resp.ok = true → resp.json = PhotosJson.arr items →
      loadPhotosSummary resp =
        Except.ok ((items.map (fun d => GooglePhotosSummaryEntry.mk d.date d.count)).filter
          (fun d => jsIsFinite d.count && isDayPattern d.date))) ∧
    (∀ kvs, resp.ok = true → resp.json = PhotosJson.obj kvs →
      loadPhotosSummary resp =
        Except.ok ((kvs.map (fun kv => GooglePhotosSummaryEntry.mk kv.1 kv.2)).filter
          (fun d => jsIsFinite d.count && isDayPattern d.date))) := by
  rcases resp with ⟨ok, status, statusText, json⟩
  refine ⟨?_, ?_, ?_, photosTransportMsg_ne_shapeMsg status statusText, ?_, ?_⟩
  · cases ok with
    | false => simp [loadPhotosSummary]
    | true =>
        cases json with
        | arr items => simp [loadPhotosSummary]
        | obj kvs => simp [loadPhotosSummary]
        | prim => simp [loadPhotosSummary]
  · intro hok
    subst hok
    simp [loadPhotosSummary]
  · intro hok hprim
    subst hok
    subst hprim
    simp [loadPhotosSummary]
  · intro items hok harr
    subst hok
    subst harr
    simp [loadPhotosSummary]
  · intro kvs hok hobj
    subst hok
    subst hobj
    simp [loadPhotosSummary]

/-- The spec's date-keyed scenario document:
`{"2021-06-01": 5, "2021-06-02": "bad"}` (the string coerces to `NaN`)
served with an ok response. -/
def photosFixtureResp : PhotosResponse :=
  { ok := true, status := 200, statusText := "OK"
  , json := PhotosJson.obj [("2021-06-01", some 5), ("2021-06-02", none)] }

/-- C9 witness: the fixture loads without error and keeps exactly the
well-formed record, silently dropping the `NaN` one. -/
theorem loadPhotosSummary_error_conditions_witness :
    loadPhotosSummary photosFixtureResp =
      Except.ok [GooglePhotosSummaryEntry.mk "2021-06-01" (some 5)] := by
  have h := (loadPhotosSummary_error_conditions photosFixtureResp).2.2.2.2.2
    [("2021-06-01", some 5), ("2021-06-02", none)] rfl rfl
  rw [h]
  rfl
